import Mathlib

/-!
Verification of the libnano solver / line-search core.

The C++ scalar type (`double`) is modelled by exact rationals `ℚ`; where the code
branches on IEEE finiteness, scalars are modelled by the inductive `Fp` which adds
the non-finite values to `ℚ`.  Vectors (`vector_t`) are lists of rationals and the
Eigen coefficient-wise operations are `List.zipWith`/`List.map`.
-/

namespace LibnanoSpec

abbrev Vec := List ℚ

/-- `a.dot(b)` for Eigen vectors. -/
def dotQ (a b : Vec) : ℚ := (List.zipWith (· * ·) a b).sum

/-- coefficient-wise sum. -/
def addQ (a b : Vec) : Vec := List.zipWith (· + ·) a b

/-- coefficient-wise difference. -/
def subQ (a b : Vec) : Vec := List.zipWith (· - ·) a b

/-- scalar multiple. -/
def smulQ (c : ℚ) (a : Vec) : Vec := a.map (fun ai => c * ai)

/-- `v.lpNorm<Eigen::Infinity>()`: the largest absolute value of a coefficient (0 for
an empty vector). -/
def linfQ (a : Vec) : ℚ := a.foldr (fun ai m => max |ai| m) 0

/-- matrix times vector, the matrix held as its list of rows. -/
def matVecQ (H : List Vec) (g : Vec) : Vec := H.map (fun row => dotQ row g)

/-- `std::clamp(v, lo, hi)`. -/
def clampQ (v lo hi : ℚ) : ℚ := if v < lo then lo else if hi < v then hi else v

/-- The IEEE `double` values relevant to the control flow of the code: a finite value
(modelled exactly) or one of the non-finite values. -/
inductive Fp where
  | fin (q : ℚ)
  | pinf
  | ninf
  | nan
deriving DecidableEq

/-- `std::isfinite`. -/
def Fp.isFinite : Fp → Bool
  | .fin _ => true
  | _ => false

/-- IEEE `<` on doubles: any comparison with NaN is false. -/
def fpLt : Fp → Fp → Bool
  | .fin a, .fin b => decide (a < b)
  | .fin _, .pinf => true
  | .ninf, .fin _ => true
  | .ninf, .pinf => true
  | _, _ => false

/-- `a = b` or `a` is IEEE-strictly below `b`: one step of the accepted-value chain. -/
def FpStepLe (a b : Fp) : Prop := a = b ∨ fpLt a b = true

/-- The part of `solver_state_t` read and written by `update_if_better`. -/
structure UState where
  x : Vec
  f : Fp
  g : Vec
deriving DecidableEq

/-- Modelled from the spec: `solver_state_t::update_if_better` is declared in a header
that is not under `src/` (only its unit test `state_update_if_better` in
`test/test_solver.cpp` and its callers are).  Per the spec it "accepts the candidate
(overwrites `x,f,g`) iff `f_candidate` is finite and strictly less than the current
`f`; returns whether it updated", which is exactly the behaviour pinned down by the
unit test (rejects larger, equal and NaN candidates, accepts strictly smaller ones). -/
def update_if_better (s : UState) (xc : Vec) (fc : Fp) (gc : Vec) : UState × Bool :=
  if fc.isFinite && fpLt fc s.f then ({ x := xc, f := fc, g := gc }, true) else (s, false)

/-- folding a whole list of candidates through `update_if_better`. -/
def applyCandidates (s : UState) : List (Vec × Fp × Vec) → UState
  | [] => s
  | c :: cs => applyCandidates (update_if_better s c.1 c.2.1 c.2.2).1 cs

/-- the accepted `f` value after each candidate of the list. -/
def fTrace (s : UState) : List (Vec × Fp × Vec) → List Fp
  | [] => []
  | c :: cs =>
    let s' := (update_if_better s c.1 c.2.1 c.2.2).1
    s'.f :: fTrace s' cs

lemma update_if_better_f_step (s : UState) (xc : Vec) (fc : Fp) (gc : Vec) :
    FpStepLe (update_if_better s xc fc gc).1.f s.f := by
  unfold update_if_better
  split
  · next h =>
    rw [Bool.and_eq_true] at h
    exact Or.inr h.2
  · exact Or.inl rfl

lemma fTrace_chain (cs : List (Vec × Fp × Vec)) :
    ∀ s : UState, List.Chain' (fun a b => FpStepLe b a) (s.f :: fTrace s cs) := by
  induction cs with
  | nil =>
    intro s
    simp [fTrace]
  | cons c cs ih =>
    intro s
    have hstep := update_if_better_f_step s c.1 c.2.1 c.2.2
    simpa [fTrace, List.chain'_cons] using ⟨hstep, ih (update_if_better s c.1 c.2.1 c.2.2).1⟩

/-- C1: `update_if_better` accepts a candidate (returning `true`) iff its function
value is finite and strictly below the current one; every step leaves `f` equal or
strictly smaller, so across any sequence of candidates the accepted `f` values form a
non-increasing chain. -/
theorem c1_update_if_better_accepts_iff_and_monotone (s : UState) (xc : Vec) (fc : Fp)
    (gc : Vec) (cs : List (Vec × Fp × Vec)) :
    ((update_if_better s xc fc gc).2 = true ↔ fc.isFinite = true ∧ fpLt fc s.f = true)
      ∧ FpStepLe (update_if_better s xc fc gc).1.f s.f
      ∧ List.Chain' (fun a b => FpStepLe b a) (s.f :: fTrace s cs) := by
  refine ⟨?_, update_if_better_f_step s xc fc gc, fTrace_chain cs s⟩
  have hsnd : (update_if_better s xc fc gc).2 = (fc.isFinite && fpLt fc s.f) := by
    unfold update_if_better
    split
    · next h => exact h.symm
    · next h => simp only [Bool.not_eq_true] at h; exact h.symm
  rw [hsnd, Bool.and_eq_true]

/-! ### Augmented Lagrangian outer loop (`src/src/solver/augmented.cpp`) -/

/-- the per-outer-iteration data mutated by `solver_augmented_lagrangian_t::do_minimize`. -/
structure AugIter where
  lambda : Vec
  miu : Vec
  ro : ℚ
  oldCriterion : ℚ
  innerEpsilon : ℚ
deriving DecidableEq

/-- the tunables read from the parameter store at the top of `do_minimize`. -/
structure AugParams where
  tau : ℚ
  gamma : ℚ
  epsilonK : ℚ
  lambdaMin : ℚ
  lambdaMax : ℚ
  miuMax : ℚ
deriving DecidableEq

/-- `make_criterion` (augmented.cpp lines 19-24):
`max(‖ceq‖∞, ‖cineq.max(-miu/ro)‖∞)`. -/
def makeCriterion (ceq cineq miu : Vec) (ro : ℚ) : ℚ :=
  max (linfQ ceq) (linfQ (List.zipWith max cineq (miu.map (fun m => -(m / ro)))))

/-- Modelled from the spec: `solver_t::more_precise` is not under `src/`; the spec says
the outer loop, on progress, "tighten[s] the inner solver's target accuracy (`ε_K`)",
modelled as multiplying the inner target accuracy by the factor `epsilonK`. -/
def morePrecise (innerEpsilon epsilonK : ℚ) : ℚ := innerEpsilon * epsilonK

/-- One outer iteration of `solver_augmented_lagrangian_t::do_minimize` after the inner
solve (augmented.cpp lines 80-99).  The inner-solve result enters through its
constraint evaluations `ceq = h(x)` and `cineq = g(x)`; the booleans computed at lines
76-78 (`done` from `solver_t::done`, `improved` from `update_if_better_constrained`)
are passed in.  Returns the updated iteration data and whether the loop continues
(`false` on `break`, in which case nothing is updated). -/
def augStep (p : AugParams) (st : AugIter) (outer : ℕ) (ceq cineq : Vec)
    (doneFlag improved : Bool) : AugIter × Bool :=
  if doneFlag then (st, false)
  else
    let lambda' := List.zipWith
      (fun l h => min (max (l + st.ro * h) p.lambdaMin) p.lambdaMax) st.lambda ceq
    let miu' := List.zipWith (fun m g => min (max (m + st.ro * g) 0) p.miuMax) st.miu cineq
    let crit := makeCriterion ceq cineq miu' st.ro
    let ro' := if 0 < outer ∧ p.tau * st.oldCriterion < crit then p.gamma * st.ro else st.ro
    let eps' := if improved then morePrecise st.innerEpsilon p.epsilonK else st.innerEpsilon
    ({ lambda := lambda', miu := miu', ro := ro', oldCriterion := crit,
       innerEpsilon := eps' }, true)

/-- The spec's words for the equality-multiplier update:
`λ ← clamp(λ + ρ·h(x), λmin, λmax)` componentwise. -/
def specLambdaUpdate (lambda ceq : Vec) (ro lmin lmax : ℚ) : Vec :=
  List.zipWith (fun l h => clampQ (l + ro * h) lmin lmax) lambda ceq

/-- The spec's words for the inequality-multiplier update:
`μ ← clamp(max(μ + ρ·g(x), 0), 0, μmax)` componentwise. -/
def specMiuUpdate (miu cineq : Vec) (ro miuMax : ℚ) : Vec :=
  List.zipWith (fun m g => clampQ (max (m + ro * g) 0) 0 miuMax) miu cineq

lemma min_max_eq_clampQ (v lo hi : ℚ) (h : lo ≤ hi) : min (max v lo) hi = clampQ v lo hi := by
  unfold clampQ
  rcases lt_or_le v lo with hv | hv
  · rw [if_pos hv, max_eq_right hv.le, min_eq_left h]
  · rw [if_neg (not_lt.mpr hv), max_eq_left hv]
    rcases lt_or_le hi v with hv2 | hv2
    · rw [if_pos hv2, min_eq_right hv2.le]
    · rw [if_neg (not_lt.mpr hv2), min_eq_left hv2]

lemma min_max_zero_eq_clampQ (v M : ℚ) (h : 0 ≤ M) :
    min (max v 0) M = clampQ (max v 0) 0 M := by
  rw [← min_max_eq_clampQ (max v 0) 0 M h, max_assoc, max_self]

/-- C2: in every outer iteration that proceeds past the termination check, the
multipliers are updated exactly as the spec's clamp formulas prescribe, componentwise,
from the inner solve's constraint values `ceq = h(x)`, `cineq = g(x)`. -/
theorem c2_augmented_multiplier_updates (p : AugParams) (st : AugIter) (outer : ℕ)
    (ceq cineq : Vec) (improved : Bool) (h1 : p.lambdaMin ≤ p.lambdaMax)
    (h2 : 0 ≤ p.miuMax) :
    (augStep p st outer ceq cineq false improved).1.lambda
        = specLambdaUpdate st.lambda ceq st.ro p.lambdaMin p.lambdaMax
      ∧ (augStep p st outer ceq cineq false improved).1.miu
        = specMiuUpdate st.miu cineq st.ro p.miuMax := by
  constructor
  · show List.zipWith _ st.lambda ceq = List.zipWith _ st.lambda ceq
    have hf : (fun l h => min (max (l + st.ro * h) p.lambdaMin) p.lambdaMax)
        = fun (l h : ℚ) => clampQ (l + st.ro * h) p.lambdaMin p.lambdaMax := by
      funext l h
      exact min_max_eq_clampQ _ _ _ h1
    rw [hf]
  · show List.zipWith _ st.miu cineq = List.zipWith _ st.miu cineq
    have hf : (fun m g => min (max (m + st.ro * g) 0) p.miuMax)
        = fun (m g : ℚ) => clampQ (max (m + st.ro * g) 0) 0 p.miuMax := by
      funext m g
      exact min_max_zero_eq_clampQ _ _ h2
    rw [hf]

/-- C2 witness at a concrete iteration. -/
theorem c2_augmented_multiplier_updates_witness :
    ((-1 : ℚ) ≤ 1 ∧ (0 : ℚ) ≤ 3)
      ∧ (augStep ⟨1/2, 10, 1/2, -1, 1, 3⟩ ⟨[0], [0], 2, 0, 1⟩ 1 [5] [-7] false true).1.lambda
          = specLambdaUpdate [0] [5] 2 (-1) 1
      ∧ (augStep ⟨1/2, 10, 1/2, -1, 1, 3⟩ ⟨[0], [0], 2, 0, 1⟩ 1 [5] [-7] false true).1.miu
          = specMiuUpdate [0] [-7] 2 3 :=
  ⟨⟨by norm_num, by norm_num⟩,
    c2_augmented_multiplier_updates ⟨1/2, 10, 1/2, -1, 1, 3⟩ ⟨[0], [0], 2, 0, 1⟩ 1 [5] [-7]
      true (by norm_num) (by norm_num)⟩

/-- C3: in a non-terminating outer iteration, the penalty `ρ` changes only by growing
to `γ·ρ`, and that happens exactly when the iteration is not the first one and the
feasibility criterion `max(‖h(x)‖∞, ‖max(g(x), -μ/ρ)‖∞)` (with the updated `μ`)
exceeds `τ` times the previous outer iteration's criterion; when the growth condition
fails, `ρ` is kept and, if the best state improved, the inner solver's target accuracy
is tightened by the factor `ε_K`. -/
theorem c3_augmented_penalty_growth (p : AugParams) (st : AugIter) (outer : ℕ)
    (ceq cineq : Vec) (improved : Bool) :
    ((augStep p st outer ceq cineq false improved).1.ro ≠ st.ro →
        0 < outer
          ∧ p.tau * st.oldCriterion
            < makeCriterion ceq cineq (augStep p st outer ceq cineq false improved).1.miu st.ro
          ∧ (augStep p st outer ceq cineq false improved).1.ro = p.gamma * st.ro)
      ∧ (0 < outer
            ∧ p.tau * st.oldCriterion
              < makeCriterion ceq cineq (augStep p st outer ceq cineq false improved).1.miu st.ro →
          (augStep p st outer ceq cineq false improved).1.ro = p.gamma * st.ro)
      ∧ (¬(0 < outer
            ∧ p.tau * st.oldCriterion
              < makeCriterion ceq cineq (augStep p st outer ceq cineq false improved).1.miu st.ro) →
          (augStep p st outer ceq cineq false improved).1.ro = st.ro
            ∧ (improved = true →
                (augStep p st outer ceq cineq false improved).1.innerEpsilon
                  = morePrecise st.innerEpsilon p.epsilonK)) := by
  have hmiu : (augStep p st outer ceq cineq false improved).1.miu
      = List.zipWith (fun m g => min (max (m + st.ro * g) 0) p.miuMax) st.miu cineq := rfl
  rw [hmiu]
  have hro : (augStep p st outer ceq cineq false improved).1.ro
      = if 0 < outer
            ∧ p.tau * st.oldCriterion
              < makeCriterion ceq cineq
                  (List.zipWith (fun m g => min (max (m + st.ro * g) 0) p.miuMax) st.miu cineq)
                  st.ro
        then p.gamma * st.ro else st.ro := rfl
  have heps : improved = true →
      (augStep p st outer ceq cineq false improved).1.innerEpsilon
        = morePrecise st.innerEpsilon p.epsilonK := by
    intro himp
    subst himp
    rfl
  refine ⟨?_, ?_, ?_⟩
  · intro hne
    rw [hro] at hne ⊢
    split at hne
    · next hcond => exact ⟨hcond.1, hcond.2, by rw [if_pos hcond]⟩
    · exact absurd rfl hne
  · intro hcond
    rw [hro, if_pos hcond]
  · intro hcond
    exact ⟨by rw [hro, if_neg hcond], heps⟩

/-- C3 witness at a concrete first iteration (no previous criterion, so `ρ` is kept and
the accuracy is tightened because the state improved). -/
theorem c3_augmented_penalty_growth_witness :
    ¬((0 : ℕ) < 0
        ∧ (1/2 : ℚ) * 0
          < makeCriterion [0] [0]
              (augStep ⟨1/2, 10, 1/2, -1, 1, 3⟩ ⟨[0], [0], 1, 0, 1⟩ 0 [0] [0] false true).1.miu 1)
      ∧ (augStep ⟨1/2, 10, 1/2, -1, 1, 3⟩ ⟨[0], [0], 1, 0, 1⟩ 0 [0] [0] false true).1.ro = 1
      ∧ (augStep ⟨1/2, 10, 1/2, -1, 1, 3⟩ ⟨[0], [0], 1, 0, 1⟩ 0 [0] [0] false true).1.innerEpsilon
        = morePrecise 1 (1/2) := by
  have hnot : ¬((0 : ℕ) < 0
      ∧ (1/2 : ℚ) * 0
        < makeCriterion [0] [0]
            (augStep ⟨1/2, 10, 1/2, -1, 1, 3⟩ ⟨[0], [0], 1, 0, 1⟩ 0 [0] [0] false true).1.miu 1) := by
    intro hc
    exact absurd hc.1 (by decide)
  have hmain := (c3_augmented_penalty_growth ⟨1/2, 10, 1/2, -1, 1, 3⟩ ⟨[0], [0], 1, 0, 1⟩ 0
    [0] [0] true).2.2 hnot
  exact ⟨hnot, hmain.1, hmain.2 rfl⟩

/-! ### Line-search step acceptance (`src/src/lsearchk.cpp`) -/

/-- the state handled by `lsearchk_t::get`. -/
structure LsState where
  x : Vec
  f : ℚ
  g : Vec
  d : Vec
  t : ℚ
  valid : Bool
deriving DecidableEq

/-- Modelled from the spec: `solver_state_t::has_descent` is declared in a header that
is not under `src/` (only its unit tests `state_has_descent`/`state_has_no_descent*`
are).  Per the spec it is "true iff `d·g < 0` (strict decrease direction)". -/
def hasDescent (s : LsState) : Bool := decide (dotQ s.d s.g < 0)

/-- the objective evaluated by `state.update`: `none` models a non-finite value or
gradient (the state then fails `valid()`). -/
abbrev ObjFun := Vec → Option (ℚ × Vec)

/-- `state.update(state0, t)`: evaluate the objective at `x0 + t·d0`, record the trial
step, and report whether the resulting state is valid. -/
def updateStep (fobj : ObjFun) (s0 : LsState) (t : ℚ) (s : LsState) : LsState × Bool :=
  let xt := addQ s0.x (smulQ t s0.d)
  match fobj xt with
  | some fg => ({ s with x := xt, f := fg.1, g := fg.2, t := t, valid := true }, true)
  | none => ({ s with t := t, valid := false }, false)

/-- the retry loop of `lsearchk_t::get` (lines 57-70): evaluate at the current trial
step; on an invalid state halve the step and retry, else stop.  Returns the final
state, the last step length tried, and how many objective evaluations were spent. -/
def lsLoop (fobj : ObjFun) (s0 : LsState) : ℕ → LsState → ℚ → LsState × ℚ × ℕ
  | 0, s, t => (s, t, 0)
  | k + 1, s, t =>
    let r := updateStep fobj s0 t s
    if r.2 then (r.1, t, 1)
    else
      let r2 := lsLoop fobj s0 k r.1 (t * (1 / 2))
      (r2.1, r2.2.1, r2.2.2 + 1)

/-- Modelled from the spec: `lsearchk_t::stpmin` is declared in a header that is not
under `src/`; the spec requires the clamped initial step to be strictly positive, so
`stpmin` is a strictly positive minimum step length (a small multiple of the machine
epsilon). -/
def stpmin : ℚ := 10 / 2 ^ 52

/-- line 56: `t = std::isfinite(t) ? std::clamp(t, stpmin(), scalar_t(1)) : scalar_t(1)`. -/
def adjustT (t : Fp) : ℚ :=
  match t with
  | .fin q => clampQ q stpmin 1
  | _ => 1

/-- `lsearchk_t::get(state, t)` (lines 42-76), with the concrete strategy's acceptance
procedure passed as `strategy` (returning its verdict and how many evaluations it
spent).  The second component counts every objective evaluation performed. -/
def lsearchkGet (strategy : LsState → LsState → Bool × ℕ) (fobj : ObjFun) (maxIters : ℕ)
    (s : LsState) (t : Fp) : Bool × ℕ :=
  if ¬hasDescent s then (false, 0)
  else
    let s0 := { s with t := 0 }
    let r := lsLoop fobj s0 maxIters s (adjustT t)
    let sg := strategy s0 r.1
    (sg.1 && r.1.valid, r.2.2 + sg.2)

/-- C4: with a zero or ascent direction, `lsearchk_t::get` fails immediately and no
objective evaluation is performed, whatever the strategy, objective, iteration budget
and trial step. -/
theorem c4_lsearchk_rejects_nondescent (strategy : LsState → LsState → Bool × ℕ)
    (fobj : ObjFun) (maxIters : ℕ) (s : LsState) (t : Fp)
    (h : hasDescent s = false) :
    lsearchkGet strategy fobj maxIters s t = (false, 0) := by
  unfold lsearchkGet
  rw [h]
  simp

/-- C4 witness: a concrete ascent direction (`d = g`, so `d·g = 1 ≥ 0`). -/
theorem c4_lsearchk_rejects_nondescent_witness :
    hasDescent ⟨[0], 0, [1], [1], 0, true⟩ = false
      ∧ lsearchkGet (fun _ _ => (true, 3)) (fun _ => some (0, [0])) 5
          ⟨[0], 0, [1], [1], 0, true⟩ (Fp.fin (1 / 2)) = (false, 0) :=
  ⟨by with_unfolding_all rfl,
    c4_lsearchk_rejects_nondescent (fun _ _ => (true, 3)) (fun _ => some (0, [0])) 5
      ⟨[0], 0, [1], [1], 0, true⟩ (Fp.fin (1 / 2)) (by with_unfolding_all rfl)⟩

lemma adjustT_bounds (t : Fp) : 0 < adjustT t ∧ adjustT t ≤ 1 := by
  have hs : (0 : ℚ) < stpmin := by norm_num [stpmin]
  have hs1 : stpmin ≤ 1 := by norm_num [stpmin]
  cases t with
  | fin q =>
    show 0 < clampQ q stpmin 1 ∧ clampQ q stpmin 1 ≤ 1
    unfold clampQ
    rcases lt_or_le q stpmin with h1 | h1
    · rw [if_pos h1]
      exact ⟨hs, hs1⟩
    · rw [if_neg (not_lt.mpr h1)]
      rcases lt_or_le 1 q with h2 | h2
      · rw [if_pos h2]
        norm_num
      · rw [if_neg (not_lt.mpr h2)]
        exact ⟨lt_of_lt_of_le hs h1, h2⟩
  | pinf =>
    show (0 : ℚ) < 1 ∧ (1 : ℚ) ≤ 1
    norm_num
  | ninf =>
    show (0 : ℚ) < 1 ∧ (1 : ℚ) ≤ 1
    norm_num
  | nan =>
    show (0 : ℚ) < 1 ∧ (1 : ℚ) ≤ 1
    norm_num

lemma lsLoop_t_bounds (fobj : ObjFun) (s0 : LsState) :
    ∀ (fuel : ℕ) (s : LsState) (t : ℚ), 0 < t → t ≤ 1 →
      0 < (lsLoop fobj s0 fuel s t).2.1 ∧ (lsLoop fobj s0 fuel s t).2.1 ≤ 1 := by
  intro fuel
  induction fuel with
  | zero =>
    intro s t ht ht1
    exact ⟨ht, ht1⟩
  | succ k ih =>
    intro s t ht ht1
    simp only [lsLoop]
    by_cases hr : (updateStep fobj s0 t s).2 = true
    · rw [if_pos hr]
      exact ⟨ht, ht1⟩
    · rw [if_neg hr]
      exact ih (updateStep fobj s0 t s).1 (t * (1 / 2)) (by linarith) (by linarith)

/-- C5: whatever step length is proposed (finite or not), the step adjusted by line 56
lies in `(0, 1]`, and every trial step subsequently used by the halving retry loop also
lies in `(0, 1]`. -/
theorem c5_lsearchk_step_in_unit_interval (fobj : ObjFun) (s0 s : LsState) (fuel : ℕ)
    (t : Fp) :
    0 < adjustT t ∧ adjustT t ≤ 1
      ∧ 0 < (lsLoop fobj s0 fuel s (adjustT t)).2.1
      ∧ (lsLoop fobj s0 fuel s (adjustT t)).2.1 ≤ 1 := by
  obtain ⟨h1, h2⟩ := adjustT_bounds t
  obtain ⟨h3, h4⟩ := lsLoop_t_bounds fobj s0 fuel s (adjustT t) h1 h2
  exact ⟨h1, h2, h3, h4⟩

/-! ### Gradient sampling (`src/src/solver/gs.cpp`, lines 86-111) -/

/-- the backtracking loop of `solver_gs_t::do_minimize` (lines 95-104): starting from
`t = 1` and shrinking by `gamma`, accept `x - t·g` once
`f(x - t·g) < f(x) - β·t·‖g‖²`; `none` when the iteration budget is exhausted
(`iters >= lsearch_max_iters`).  `gnorm2` is the already computed `g.lpNorm<2>()`. -/
def gsLsearch (fval : Vec → ℚ) (x g : Vec) (fx beta gamma gnorm2 : ℚ) :
    ℕ → ℚ → Option Vec
  | 0, _ => none
  | k + 1, t =>
    let xt := subQ x (smulQ t g)
    if fval xt < fx - beta * t * gnorm2 ^ 2 then some xt
    else gsLsearch fval x g fx beta gamma gnorm2 k (t * gamma)

/-- the data updated by one pass over lines 86-111 of gs.cpp. -/
structure GsUpdate where
  miuk : ℚ
  epsilonk : ℚ
  accepted : Option Vec
deriving DecidableEq

/-- lines 86-111 of gs.cpp: if the stabilized gradient's norm is at most `μₖ`, shrink
both `μₖ` and `εₖ`; otherwise run the backtracking line search and, if it exhausts its
budget, shrink only `εₖ`. -/
def gsStep (fval : Vec → ℚ) (x g : Vec) (fx gnorm2 miuk epsilonk beta gamma : ℚ)
    (thetaMiu thetaEpsilon : ℚ) (lsearchMaxIters : ℕ) : GsUpdate :=
  if gnorm2 ≤ miuk then
    { miuk := miuk * thetaMiu, epsilonk := epsilonk * thetaEpsilon, accepted := none }
  else
    match gsLsearch fval x g fx beta gamma gnorm2 lsearchMaxIters 1 with
    | some xt => { miuk := miuk, epsilonk := epsilonk, accepted := some xt }
    | none => { miuk := miuk, epsilonk := epsilonk * thetaEpsilon, accepted := none }

/-- C6 counterexample: at a concrete input the backtracking line search fails (budget
2, objective constantly 0, `‖g‖ = 1 > μₖ = 1/2`), yet `μₖ` is left unchanged — only
`εₖ` is shrunk — contradicting the claim that both are shrunk on line-search
failure (`μₖ·θμ` would be `1/20`, not `1/2`). -/
theorem c6_gs_lsearch_failure_counterexample :
    gsLsearch (fun _ => 0) [0] [1] 0 (1 / 10 ^ 16) (7 / 10) 1 2 1 = none
      ∧ gsStep (fun _ => 0) [0] [1] 0 1 (1 / 2) 1 (1 / 10 ^ 16) (7 / 10) (1 / 10) (1 / 10) 2
        = { miuk := 1 / 2, epsilonk := 1 / 10, accepted := none }
      ∧ ¬((1 / 2 : ℚ) = 1 / 2 * (1 / 10)) := by
  refine ⟨by with_unfolding_all rfl, by with_unfolding_all rfl, by norm_num⟩

/-- C6 (amended): when the stabilized gradient's norm is at most `μₖ`, both `μₖ` and
`εₖ` are shrunk geometrically; when the norm exceeds `μₖ` and the backtracking line
search exhausts its budget, only the sampling radius `εₖ` is shrunk and `μₖ` is left
unchanged; when the line search succeeds neither is shrunk. -/
theorem c6_gs_shrink_amended (fval : Vec → ℚ) (x g : Vec)
    (fx gnorm2 miuk epsilonk beta gamma thetaMiu thetaEpsilon : ℚ) (maxIters : ℕ) :
    (gnorm2 ≤ miuk →
        gsStep fval x g fx gnorm2 miuk epsilonk beta gamma thetaMiu thetaEpsilon maxIters
          = { miuk := miuk * thetaMiu, epsilonk := epsilonk * thetaEpsilon, accepted := none })
      ∧ (¬gnorm2 ≤ miuk →
          gsLsearch fval x g fx beta gamma gnorm2 maxIters 1 = none →
          gsStep fval x g fx gnorm2 miuk epsilonk beta gamma thetaMiu thetaEpsilon maxIters
            = { miuk := miuk, epsilonk := epsilonk * thetaEpsilon, accepted := none })
      ∧ (∀ xt, ¬gnorm2 ≤ miuk →
          gsLsearch fval x g fx beta gamma gnorm2 maxIters 1 = some xt →
          gsStep fval x g fx gnorm2 miuk epsilonk beta gamma thetaMiu thetaEpsilon maxIters
            = { miuk := miuk, epsilonk := epsilonk, accepted := some xt }) := by
  refine ⟨?_, ?_, ?_⟩
  · intro hle
    unfold gsStep
    rw [if_pos hle]
  · intro hgt hnone
    unfold gsStep
    rw [if_neg hgt, hnone]
  · intro xt hgt hsome
    unfold gsStep
    rw [if_neg hgt, hsome]

/-- C6 witness for the amended claim: the small-norm branch shrinks both factors, and
the concrete failing line search shrinks only the radius. -/
theorem c6_gs_shrink_amended_witness :
    gsStep (fun _ => 0) [0] [1] 0 1 2 1 (1 / 10 ^ 16) (7 / 10) (1 / 10) (1 / 10) 2
        = { miuk := 2 * (1 / 10), epsilonk := 1 * (1 / 10), accepted := none }
      ∧ gsStep (fun _ => 1) [0] [1] 0 1 (1 / 2) 1 (1 / 10 ^ 16) (7 / 10) (1 / 10) (1 / 10) 2
        = { miuk := 1 / 2, epsilonk := 1 * (1 / 10), accepted := none } :=
  ⟨(c6_gs_shrink_amended (fun _ => 0) [0] [1] 0 1 2 1 (1 / 10 ^ 16) (7 / 10) (1 / 10)
      (1 / 10) 2).1 (by norm_num),
    (c6_gs_shrink_amended (fun _ => 1) [0] [1] 0 1 (1 / 2) 1 (1 / 10 ^ 16) (7 / 10) (1 / 10)
      (1 / 10) 2).2.1 (by norm_num) (by with_unfolding_all rfl)⟩

/-! ### Bundle growth (`src/src/solver/bundle.cpp`) -/

/-- one cutting plane recorded by `bundle_t` (`point_t`): `f(z)`, `f'(z)` and
`f'(z)·z`. -/
structure BPoint where
  f : ℚ
  g : Vec
  gdotz : ℚ
deriving DecidableEq

/-- `bundle_t::append` (bundle.cpp lines 44-47):
`m_points.emplace_back(fz, gz, gz.dot(z))` — the new plane is appended and every
existing plane is kept. -/
def bundleAppend (pts : List BPoint) (z : Vec) (fz : ℚ) (gz : Vec) : List BPoint :=
  pts ++ [{ f := fz, g := gz, gdotz := dotQ gz z }]

/-- the bundle contents along a run of the FPBA loop: `bundle_t{state}` starts from the
empty point list and appends the initial `(x₀, f(x₀), g(x₀))`; each null step (bundle.cpp
line 225) appends the trial point's cutting plane, the trial data given by `trial`. -/
def bundleAfterNullSteps (x0 : Vec) (f0 : ℚ) (g0 : Vec) (trial : ℕ → Vec × ℚ × Vec) :
    ℕ → List BPoint
  | 0 => bundleAppend [] x0 f0 g0
  | k + 1 =>
    bundleAppend (bundleAfterNullSteps x0 f0 g0 trial k) (trial k).1 (trial k).2.1
      (trial k).2.2

lemma bundleAppend_length (pts : List BPoint) (z : Vec) (fz : ℚ) (gz : Vec) :
    (bundleAppend pts z fz gz).length = pts.length + 1 := by
  unfold bundleAppend
  rw [List.length_append]
  rfl

lemma bundleAfterNullSteps_length (x0 : Vec) (f0 : ℚ) (g0 : Vec)
    (trial : ℕ → Vec × ℚ × Vec) : ∀ k : ℕ, (bundleAfterNullSteps x0 f0 g0 trial k).length = k + 1 := by
  intro k
  induction k with
  | zero => rfl
  | succ n ih =>
    show (bundleAppend (bundleAfterNullSteps x0 f0 g0 trial n) _ _ _).length = n + 1 + 1
    rw [bundleAppend_length, ih]

/-- C7 counterexample: the bundle size admits no bound at all over a solve — after `k`
null steps it holds `k + 1` cutting planes, so no limit-triggered eviction exists
(shown here along a concrete trial sequence). -/
theorem c7_bundle_unbounded_counterexample :
    ¬∃ N : ℕ, ∀ k : ℕ,
      (bundleAfterNullSteps [0] 0 [0] (fun _ => ([0], 0, [0])) k).length ≤ N := by
  rintro ⟨N, hN⟩
  have h := hN (N + 1)
  rw [bundleAfterNullSteps_length] at h
  omega

/-- C7 (amended): `bundle_t::append` never evicts — every existing cutting plane is
kept and exactly one plane is added — so after `k` null steps the bundle holds exactly
`k + 1` planes; within one solve its size is limited only by the evaluation budget,
not by any eviction mechanism. -/
theorem c7_bundle_append_growth (pts : List BPoint) (z : Vec) (fz : ℚ) (gz : Vec)
    (x0 : Vec) (f0 : ℚ) (g0 : Vec) (trial : ℕ → Vec × ℚ × Vec) (k : ℕ) :
    (bundleAppend pts z fz gz).length = pts.length + 1
      ∧ (bundleAppend pts z fz gz).take pts.length = pts
      ∧ (bundleAfterNullSteps x0 f0 g0 trial k).length = k + 1 := by
  refine ⟨bundleAppend_length pts z fz gz, ?_,
    bundleAfterNullSteps_length x0 f0 g0 trial k⟩
  unfold bundleAppend
  rw [List.take_left]

/-! ### Finite-difference gradient check (`src/src/function/util.cpp`, lines 7-55) -/

/-- a function given by its value map and its analytical gradient map (the two outputs
of `function_t::vgrad`). -/
structure FunQ where
  val : Vec → ℚ
  grad : Vec → Vec

/-- the candidate perturbation sizes of `nano::grad_accuracy` (util.cpp line 25), each
double literal read as the exact rational it denotes. -/
def dxCandidates : List ℚ :=
  [1 / 10 ^ 9, 3 / 10 ^ 9, 1 / 10 ^ 8, 3 / 10 ^ 8, 5 / 10 ^ 8, 8 / 10 ^ 8,
    1 / 10 ^ 7, 3 / 10 ^ 7, 5 / 10 ^ 7, 8 / 10 ^ 7, 1 / 10 ^ 6, 3 / 10 ^ 6]

/-- `std::numeric_limits<scalar_t>::max()`, the initial value of `dg` (line 24). -/
def dblMax : ℚ := (2 ^ 53 - 1) * 2 ^ 971

/-- the central finite-difference gradient of util.cpp lines 27-45: coordinate `i` is
perturbed by `±dx·max(1,|xᵢ|)` (the loop restores coordinate `i-1` first, so exactly
one coordinate differs from `x` at a time) and the difference quotient uses
`dxi = xp(i) - xn(i)`. -/
def fdGradApprox (F : FunQ) (x : Vec) (dx : ℚ) : Vec :=
  (List.range x.length).map (fun i =>
    let xi := x.getD i 0
    let h := dx * max 1 |xi|
    (F.val (x.set i (xi + h)) - F.val (x.set i (xi - h))) / (xi + h - (xi - h)))

/-- the candidate loop of `nano::grad_accuracy` (util.cpp lines 25-52), exactly as
written: `dg = min(dg, ‖gx - gx_approx‖∞) / (1 + |fx|)` each iteration, with an early
break once `dg < desired_accuracy`. -/
def gradAccuracyGo (F : FunQ) (x gx : Vec) (fx desired : ℚ) : List ℚ → ℚ → ℚ
  | [], dg => dg
  | dx :: rest, dg =>
    let dg' := min dg (linfQ (subQ gx (fdGradApprox F x dx))) / (1 + |fx|)
    if dg' < desired then dg' else gradAccuracyGo F x gx fx desired rest dg'

/-- `nano::grad_accuracy(function, x, desired_accuracy)` (util.cpp lines 7-55). -/
def grad_accuracy (F : FunQ) (x : Vec) (desired : ℚ) : ℚ :=
  gradAccuracyGo F x (F.grad x) (F.val x) desired dxCandidates dblMax

/-- The spec's words: the smallest, over the candidate perturbation sizes, of the
infinity norm of (analytical gradient minus central finite-difference gradient),
normalized by `1 + |f(x)|`. -/
def specGradAccuracy (F : FunQ) (x : Vec) : ℚ :=
  (dxCandidates.map
    (fun dx => linfQ (subQ (F.grad x) (fdGradApprox F x dx)) / (1 + |F.val x|))).foldr
    min dblMax

/-- the failing input for C8: the constant function `f ≡ 1` whose declared analytical
gradient is `(1)`, at `x = (0)`; every candidate gives the same finite-difference
discrepancy `1` and `1 + |f(x)| = 2`. -/
def cbugFun : FunQ := { val := fun _ => 1, grad := fun _ => [1] }

set_option maxHeartbeats 4000000 in
lemma cbug_code_value : grad_accuracy cbugFun [0] 0 = 1 / 4096 := by
  norm_num [grad_accuracy, gradAccuracyGo, dxCandidates, cbugFun, fdGradApprox, linfQ, subQ,
    dblMax, min_def, List.range_succ]

set_option maxHeartbeats 4000000 in
lemma cbug_spec_value : specGradAccuracy cbugFun [0] = 1 / 2 := by
  norm_num [specGradAccuracy, dxCandidates, cbugFun, fdGradApprox, linfQ, subQ, dblMax,
    min_def, List.range_succ]

/-- C8 (code bug): the claim says the returned value is the smallest over the
candidates of the discrepancy norm divided by `1 + |f(x)|`, which here is `1/2` (as the
sibling implementation `function_t::grad_accuracy` computes); the code instead divides
the running minimum by `1 + |f(x)|` once per candidate iteration, compounding across
the 12 candidates to `1/2^12 = 1/4096`. -/
theorem c8_grad_accuracy_compounding_bug :
    grad_accuracy cbugFun [0] 0 = 1 / 4096
      ∧ specGradAccuracy cbugFun [0] = 1 / 2
      ∧ ¬(grad_accuracy cbugFun [0] 0 = specGradAccuracy cbugFun [0]) := by
  refine ⟨cbug_code_value, cbug_spec_value, ?_⟩
  intro h
  rw [cbug_code_value, cbug_spec_value] at h
  norm_num at h

/-! ### `solver_t::minimize` (`src/src/solver.cpp`, lines 86-94) -/

/-- the `function_t` data relevant to `solver_t::minimize`: its fixed dimensionality
and its mutable evaluation counters. -/
structure FunctionT where
  size : ℕ
  fcalls : ℕ
  gcalls : ℕ
deriving DecidableEq

/-- Modelled from the spec: `function_t::clear_statistics` is not under `src/`; per the
spec "evaluation counters only increase and are reset explicitly before a solve", it
resets both counters to zero. -/
def clear_statistics (F : FunctionT) : FunctionT := { F with fcalls := 0, gcalls := 0 }

/-- `solver_t::minimize` (solver.cpp lines 86-94): `critical` raises a hard error at
the call site when the dimensions mismatch (modelled as `Except.error`, before any
work is done); otherwise the counters are cleared and only then `do_minimize` runs. -/
def solverMinimize {α : Type} (doMinimize : FunctionT → Vec → α) (F : FunctionT)
    (x0 : Vec) : Except String α :=
  if F.size ≠ x0.length then Except.error "solver: incompatible initial point"
  else Except.ok (doMinimize (clear_statistics F) x0)

/-- C9: a dimension mismatch raises the error before any solve is started, for every
possible `do_minimize`; with matching dimensions the solve runs on the function with
both evaluation counters freshly reset to zero. -/
theorem c9_minimize_dimension_check {α : Type} (doMinimize : FunctionT → Vec → α)
    (F : FunctionT) (x0 : Vec) :
    (F.size ≠ x0.length →
        solverMinimize doMinimize F x0 = Except.error "solver: incompatible initial point")
      ∧ (F.size = x0.length →
          solverMinimize doMinimize F x0
            = Except.ok (doMinimize { size := F.size, fcalls := 0, gcalls := 0 } x0)) := by
  constructor
  · intro hne
    unfold solverMinimize
    rw [if_pos hne]
  · intro heq
    unfold solverMinimize
    rw [if_neg (by simp [heq])]
    rfl

/-- C9 witness: a 2-dimensional function with a 1-dimensional initial point errors; a
1-dimensional one is solved after the counters (here 7 and 9) are reset. -/
theorem c9_minimize_dimension_check_witness :
    solverMinimize (fun F _ => F.fcalls + F.gcalls) ⟨2, 7, 9⟩ [0]
        = Except.error "solver: incompatible initial point"
      ∧ solverMinimize (fun F _ => F.fcalls + F.gcalls) ⟨1, 7, 9⟩ [0] = Except.ok 0 :=
  ⟨(c9_minimize_dimension_check (fun F _ => F.fcalls + F.gcalls) ⟨2, 7, 9⟩ [0]).1
      (by norm_num),
    (c9_minimize_dimension_check (fun F _ => F.fcalls + F.gcalls) ⟨1, 7, 9⟩ [0]).2 rfl⟩

/-! ### Ellipsoid method guard (`src/src/solver/ellipsoid.cpp`, lines 30-55) -/

/-- the status enum of `solver_state_t`. -/
inductive SolverStatus where
  | converged
  | maxIterations
  | stopped
  | failed
deriving DecidableEq

/-- `solver_t::done` (solver.cpp lines 96-119): the status written to the state (`none`
when unchanged) and whether the loop stops; the logger verdict enters as a boolean. -/
def solverDone (iterOk stateValid converged loggerOk : Bool) :
    Option SolverStatus × Bool :=
  let stepOk := iterOk && stateValid
  if converged || !stepOk then
    (some (if converged then SolverStatus.converged else SolverStatus.failed), true)
  else if !loggerOk then (some SolverStatus.stopped, true)
  else (none, false)

/-- `std::numeric_limits<scalar_t>::epsilon()` for `double`. -/
def machineEps : ℚ := 1 / 2 ^ 52

/-- the three possible continuations of one ellipsoid iteration head. -/
inductive EllOutcome where
  | earlyStop (status : Option SolverStatus) (stop : Bool)
  | bisect (x' : Vec) (H' : List Vec)
  | deepCut (gHg : ℚ)
deriving DecidableEq

/-- the head of the ellipsoid loop body (ellipsoid.cpp lines 30-55): compute
`gHg = g·(H·g)`; if it is below the machine epsilon, call `done(iter_ok =
converged = true)` and break; otherwise take the 1-D bisection branch when `n = 1`, or
the deep-cut branch, whose update divides by `√(gHg)` (irrational, so the outcome
records the radicand `gHg` that the division uses). -/
def ellipsoidStep (n : ℕ) (x g : Vec) (H : List Vec) (stateValid loggerOk : Bool) :
    EllOutcome :=
  let gHg := dotQ g (matVecQ H g)
  if gHg < machineEps then
    EllOutcome.earlyStop (solverDone true stateValid true loggerOk).1
      (solverDone true stateValid true loggerOk).2
  else if n = 1 then
    EllOutcome.bisect
      (x.map (fun xi => xi + (H.headD []).headD 0 * (if g.headD 0 < 0 then 1 else -1)))
      (H.map (fun row => row.map (fun hij => hij / 2)))
  else EllOutcome.deepCut gHg

lemma solverDone_converged (stateValid loggerOk : Bool) :
    solverDone true stateValid true loggerOk = (some SolverStatus.converged, true) := by
  unfold solverDone
  rfl

/-- C10: whenever the deep-cut branch (which divides by `√(gHg)`) is taken, the
recorded `gHg` is at least the machine epsilon; and whenever `gHg` falls below the
machine epsilon, the iteration stops immediately with status `converged`, so the
division is never performed with a near-zero radicand. -/
theorem c10_ellipsoid_deepcut_guard (n : ℕ) (x g : Vec) (H : List Vec)
    (stateValid loggerOk : Bool) :
    (dotQ g (matVecQ H g) < machineEps →
        ellipsoidStep n x g H stateValid loggerOk
          = EllOutcome.earlyStop (some SolverStatus.converged) true)
      ∧ (∀ d : ℚ, ellipsoidStep n x g H stateValid loggerOk = EllOutcome.deepCut d →
          machineEps ≤ d) := by
  constructor
  · intro hlt
    unfold ellipsoidStep
    rw [if_pos hlt, solverDone_converged]
  · intro d hd
    unfold ellipsoidStep at hd
    by_cases hlt : dotQ g (matVecQ H g) < machineEps
    · rw [if_pos hlt] at hd
      exact absurd hd (by simp)
    · rw [if_neg hlt] at hd
      by_cases hn : n = 1
      · rw [if_pos hn] at hd
        exact absurd hd (by simp)
      · rw [if_neg hn] at hd
        cases hd
        exact not_lt.mp hlt

/-- C10 witness: at `g = 0` the guard stops with status converged; at `g = (1,0)` with
`H = I` the deep cut runs with radicand `1 ≥ machineEps`. -/
theorem c10_ellipsoid_deepcut_guard_witness :
    ellipsoidStep 2 [0, 0] [0, 0] [[1, 0], [0, 1]] true true
        = EllOutcome.earlyStop (some SolverStatus.converged) true
      ∧ machineEps ≤ 1 :=
  ⟨(c10_ellipsoid_deepcut_guard 2 [0, 0] [0, 0] [[1, 0], [0, 1]] true true).1
      (by norm_num [dotQ, matVecQ, machineEps]),
    (c10_ellipsoid_deepcut_guard 2 [0, 0] [1, 0] [[1, 0], [0, 1]] true true).2 1
      (by with_unfolding_all rfl)⟩

end LibnanoSpec
